import Mathlib

/-!
Shallow embedding of the diagnostic primitives of the Assertify repository
(`src/include/assertify/assertify.hpp`): the atomic counter
`detail::thread_safe_counter`, the tracking arena `detail::basic_memory_pool`,
the exception barrier `detail::format_value`, and the concurrent performance
counter exercised by `src/test/concurrent_perofrmance_counter.cpp`.

Machine pointers returned by the arena are modelled as byte offsets into the
monotonic backing buffer; `std::size_t` counters are modelled as `Nat`
(the arena never reuses memory, so lifetime byte totals are bounded by the
address space and wrap-around is unreachable).
-/

/-- Embedding of `detail::thread_safe_counter<T>`: a single numeric cell.
The atomic load/store discipline is invisible to sequential state passing,
so the cell is a plain value. -/
structure thread_safe_counter (T : Type) where
  value_ : T
deriving DecidableEq

/-- The member initializer `std::atomic<T> value_{0}`. -/
def thread_safe_counter.init {T : Type} [Zero T] : thread_safe_counter T :=
  ⟨0⟩

/-- `increment()`: `value_.fetch_add(1, relaxed)`. -/
def thread_safe_counter.increment {T : Type} [Add T] [One T]
    (c : thread_safe_counter T) : thread_safe_counter T :=
  ⟨c.value_ + 1⟩

/-- `add(val)`: `value_.fetch_add(val, relaxed)`. -/
def thread_safe_counter.add {T : Type} [Add T]
    (c : thread_safe_counter T) (val : T) : thread_safe_counter T :=
  ⟨c.value_ + val⟩

/-- `get()`: `value_.load(relaxed)`. -/
def thread_safe_counter.get {T : Type} (c : thread_safe_counter T) : T :=
  c.value_

/-- `reset()`: `value_.store(0, relaxed)`. -/
def thread_safe_counter.reset {T : Type} [Zero T]
    (c : thread_safe_counter T) : thread_safe_counter T :=
  ⟨0⟩

/-- Embedding of `basic_memory_pool::block_header` (the uninitialized and
never-read `next` pointer is omitted; timestamps are abstract ticks). -/
structure block_header where
  size : Nat
  allocated : Bool
  allocation_time : Nat
deriving DecidableEq

/-- Size in bytes charged to the backing buffer for one `block_header`
(a concrete positive constant; only positivity matters). -/
def header_size : Nat := 32

/-- `alignof(block_header)`. -/
def header_align : Nat := 8

/-- Rounding of the bump cursor performed by
`monotonic_buffer_resource`/`allocate_bytes(size, align)`: the least multiple
of `a` that is `≥ o` (for `0 < a`). -/
def alignUp (o a : Nat) : Nat :=
  ((o + a - 1) / a) * a

/-- Embedding of `std::unordered_map::operator[]` followed by assignment on
the association-list view of `active_allocations_`: update the entry holding
key `k` if present, otherwise append a fresh entry. -/
def insertAssoc (l : List (Nat × block_header)) (k : Nat) (v : block_header) :
    List (Nat × block_header) :=
  match l with
  | [] => [(k, v)]
  | e :: es => if e.1 = k then (k, v) :: es else e :: insertAssoc es k v

/-- Embedding of `find` + `erase(it)` on the association-list view: remove the
first entry holding key `k`, if any. -/
def eraseKey (l : List (Nat × block_header)) (k : Nat) :
    List (Nat × block_header) :=
  match l with
  | [] => []
  | e :: es => if e.1 = k then es else e :: eraseKey es k

/-- Embedding of `find` on the association-list view. -/
def lookupAssoc (l : List (Nat × block_header)) (k : Nat) :
    Option block_header :=
  match l with
  | [] => none
  | e :: es => if e.1 = k then some e.2 else lookupAssoc es k

/-- Embedding of `detail::basic_memory_pool`. `offset` is the bump cursor of
the monotonic backing buffer; handles handed out by `allocate` are the byte
offsets at which the data region of each allocation starts. The
`shared_mutex` serializes the public operations, so the sequential state
machine below is the observable behaviour. -/
structure basic_memory_pool where
  offset : Nat
  allocation_count_ : thread_safe_counter Nat
  total_allocated_ : thread_safe_counter Nat
  active_allocations_ : List (Nat × block_header)
deriving DecidableEq

/-- The constructor `basic_memory_pool(initial_size)`: empty table, zero
counters, cursor at the start of the buffer (the capacity argument only
sizes the first backing segment and is not observable). -/
def basic_memory_pool.init : basic_memory_pool :=
  ⟨0, thread_safe_counter.init, thread_safe_counter.init, []⟩

/-- Embedding of `allocate<T>(count)` with `sizeofT = sizeof(T)`,
`alignT = alignof(T)` and an abstract clock reading `time`: reserve
`sizeof(T) * count` bytes at the aligned cursor, then reserve a
`block_header` from the same buffer, record the block in
`active_allocations_`, and bump both lifetime counters. Returns the new
pool state and the handle (data offset). Total: buffer exhaustion is handled
inside `monotonic_buffer_resource` by chaining a new segment. -/
def basic_memory_pool.allocate (p : basic_memory_pool)
    (sizeofT alignT count time : Nat) : basic_memory_pool × Nat :=
  let size := sizeofT * count
  let ptr := alignUp p.offset alignT
  let hdrOff := alignUp (ptr + size) header_align
  (⟨hdrOff + header_size,
    p.allocation_count_.increment,
    p.total_allocated_.add size,
    insertAssoc p.active_allocations_ ptr ⟨size, true, time⟩⟩, ptr)

/-- Embedding of `deallocate(ptr)`: if the handle is found in
`active_allocations_`, its header is marked not-allocated and the entry is
erased (mark-then-erase collapses to erase on the table state); a handle not
found leaves the pool untouched. -/
def basic_memory_pool.deallocate (p : basic_memory_pool) (ptr : Nat) :
    basic_memory_pool :=
  { p with active_allocations_ := eraseKey p.active_allocations_ ptr }

/-- `active_allocation_count()`: `active_allocations_.size()`. -/
def basic_memory_pool.active_allocation_count (p : basic_memory_pool) : Nat :=
  p.active_allocations_.length

/-- `has_memory_leaks()`: `active_allocation_count() > 0`. -/
def basic_memory_pool.has_memory_leaks (p : basic_memory_pool) : Bool :=
  decide (0 < p.active_allocation_count)

/-- `reset()`: `buffer_.release()` (cursor back to the start),
`active_allocations_.clear()`, both counters reset. -/
def basic_memory_pool.reset (p : basic_memory_pool) : basic_memory_pool :=
  ⟨0, p.allocation_count_.reset, p.total_allocated_.reset, []⟩

/-- `get_leak_report()` at clock reading `now`: one `(handle, age)` pair per
live record. -/
def basic_memory_pool.get_leak_report (p : basic_memory_pool) (now : Nat) :
    List (Nat × Nat) :=
  p.active_allocations_.map (fun e => (e.1, now - e.2.allocation_time))

/-- Handles currently present in the tracking table. -/
def basic_memory_pool.activeKeys (p : basic_memory_pool) : List Nat :=
  p.active_allocations_.map Prod.fst

/-- Sum of the `size` attributes of the records of an association list. -/
def sizesSum (l : List (Nat × block_header)) : Nat :=
  (l.map (fun e => e.2.size)).sum

/-- Sum of the sizes of the currently live allocation records. -/
def sumLiveSizes (p : basic_memory_pool) : Nat :=
  sizesSum p.active_allocations_

/-- One client call against a single pool: an `allocate<T>(count)` (carrying
`sizeof(T)`, `alignof(T)`, the count and the clock tick) or a
`deallocate(handle)`. -/
inductive Op where
  | alloc (sizeofT alignT count time : Nat)
  | dealloc (handle : Nat)
deriving DecidableEq

/-- A trace is well formed when every `alloc` carries a positive alignment,
as `alignof(T) ≥ 1` for every C++ type `T`. -/
def Op.align_ok : Op → Bool
  | Op.alloc _ a _ _ => decide (0 < a)
  | Op.dealloc _ => true

/-- Run a sequence of calls against pool state `p`. -/
def runFrom (p : basic_memory_pool) : List Op → basic_memory_pool
  | [] => p
  | Op.alloc s a c t :: rest => runFrom (p.allocate s a c t).1 rest
  | Op.dealloc h :: rest => runFrom (p.deallocate h) rest

/-- Run a sequence of calls against a freshly constructed pool. -/
def run (ops : List Op) : basic_memory_pool :=
  runFrom basic_memory_pool.init ops

/-- Specification-side bookkeeping for claim C1, following the spec's words:
the handles returned by allocate calls that have not yet had a matching,
first-time-valid deallocate call. An allocate call appends the handle it
returned; a deallocate call is first-time-valid exactly when its handle is
still outstanding, and only then removes it. -/
def liveHandlesFrom (p : basic_memory_pool) (live : List Nat) :
    List Op → List Nat
  | [] => live
  | Op.alloc s a c t :: rest =>
      liveHandlesFrom (p.allocate s a c t).1
        (live ++ [(p.allocate s a c t).2]) rest
  | Op.dealloc h :: rest =>
      liveHandlesFrom (p.deallocate h)
        (if h ∈ live then live.erase h else live) rest

/-- Specification-side outstanding handles of a whole trace. -/
def liveHandles (ops : List Op) : List Nat :=
  liveHandlesFrom basic_memory_pool.init [] ops

/-- Modelled from the spec: `concurrent_performance_counter` itself is absent
from `src/` (only its unit tests are present), so the counter is taken from
§3/§4.4 of the spec: it retains the recorded samples in arrival order, and
its aggregates satisfy `count == number of retained samples`,
`total == their sum`, `min`/`max` over the retained samples with every
aggregate reader returning 0 when `count() == 0`. -/
structure concurrent_performance_counter where
  samples : List Nat
deriving DecidableEq

/-- Modelled from the spec: a counter is created empty. -/
def concurrent_performance_counter.init : concurrent_performance_counter :=
  ⟨[]⟩

/-- Modelled from the spec: the commit performed when a scoped timer token
goes out of scope appends one sample. -/
def concurrent_performance_counter.record
    (c : concurrent_performance_counter) (d : Nat) :
    concurrent_performance_counter :=
  ⟨c.samples ++ [d]⟩

/-- Modelled from the spec: `reset()` clears samples and aggregates. -/
def concurrent_performance_counter.reset
    (c : concurrent_performance_counter) : concurrent_performance_counter :=
  ⟨[]⟩

/-- Modelled from the spec: `count()`. -/
def concurrent_performance_counter.count
    (c : concurrent_performance_counter) : Nat :=
  c.samples.length

/-- Modelled from the spec: `total_time_ns()`. -/
def concurrent_performance_counter.total_time_ns
    (c : concurrent_performance_counter) : Nat :=
  c.samples.sum

/-- Modelled from the spec: `min_time_ns()`, 0 when no samples exist. -/
def concurrent_performance_counter.min_time_ns
    (c : concurrent_performance_counter) : Nat :=
  match c.samples with
  | [] => 0
  | x :: xs => xs.foldl Nat.min x

/-- Modelled from the spec: `max_time_ns()`, 0 when no samples exist. -/
def concurrent_performance_counter.max_time_ns
    (c : concurrent_performance_counter) : Nat :=
  match c.samples with
  | [] => 0
  | x :: xs => xs.foldl Nat.max x

/-- Modelled from the spec: `average_time_ns()`, `total / count` or 0 when
empty (exact rational arithmetic stands in for the `double` result; the
empty-case value 0.0 is exactly representable). -/
def concurrent_performance_counter.average_time_ns
    (c : concurrent_performance_counter) : ℚ :=
  if c.count = 0 then 0 else (c.total_time_ns : ℚ) / (c.count : ℚ)

/-- Order statistic with the index clamped into the sample range
(out-of-range ranks saturate at the last sorted sample). -/
def clampNth (s : List Nat) (k : Nat) : Nat :=
  s.getD (min k (s.length - 1)) 0

/-- Linear interpolation between the two order statistics bounding rank `r`
of the sorted snapshot `s`. -/
def interp (s : List Nat) (r : ℚ) : ℚ :=
  (clampNth s (Int.floor r).toNat : ℚ) +
    (r - ((Int.floor r).toNat : ℚ)) *
      ((clampNth s ((Int.floor r).toNat + 1) : ℚ) -
        (clampNth s (Int.floor r).toNat : ℚ))

/-- Modelled from the spec: `percentile(p)` sorts a snapshot of the retained
samples and linearly interpolates between the two bounding order statistics
at rank `p * (count - 1) / 100`; returns 0 when no samples exist. -/
def concurrent_performance_counter.percentile
    (c : concurrent_performance_counter) (p : ℚ) : ℚ :=
  if c.samples = [] then 0
  else
    interp (c.samples.insertionSort (· ≤ ·))
      (p * ((c.samples.length - 1 : Nat) : ℚ) / 100)

/-- Embedding of `detail::format_value`: the body of `value_formatter::format`
for the value being printed is abstracted as a function that either produces
a string or raises an exception (`Except.error`); the `try`/`catch (...)`
barrier turns every escaping exception into the literal `"unprintable"`. -/
def format_value {α : Type} (formatter : α → Except String String)
    (value : α) : String :=
  match formatter value with
  | Except.ok s => s
  | Except.error _ => "unprintable"

/-! Helper lemmas about the buffer cursor and the association-list table. -/

theorem le_alignUp {o a : Nat} (ha : 0 < a) : o ≤ alignUp o a := by
  unfold alignUp
  have h1 := Nat.div_add_mod (o + a - 1) a
  have h2 : (o + a - 1) % a < a := Nat.mod_lt _ ha
  rw [Nat.mul_comm]
  generalize hX : a * ((o + a - 1) / a) = X at h1 ⊢
  generalize hM : (o + a - 1) % a = m at h1 h2
  omega

theorem alignUp_mod (o a : Nat) : alignUp o a % a = 0 :=
  Nat.mul_mod_left _ _

theorem insertAssoc_of_not_mem (l : List (Nat × block_header)) (k : Nat)
    (v : block_header) (h : k ∉ l.map Prod.fst) :
    insertAssoc l k v = l ++ [(k, v)] := by
  induction l with
  | nil => rfl
  | cons e es ih =>
    simp only [List.map_cons, List.mem_cons] at h
    push_neg at h
    rw [insertAssoc, if_neg (fun hek => h.1 hek.symm), ih h.2]
    rfl

theorem eraseKey_of_not_mem (l : List (Nat × block_header)) (k : Nat)
    (h : k ∉ l.map Prod.fst) : eraseKey l k = l := by
  induction l with
  | nil => rfl
  | cons e es ih =>
    simp only [List.map_cons, List.mem_cons] at h
    push_neg at h
    rw [eraseKey, if_neg (fun hek => h.1 hek.symm), ih h.2]

theorem map_fst_eraseKey (l : List (Nat × block_header)) (k : Nat) :
    (eraseKey l k).map Prod.fst = (l.map Prod.fst).erase k := by
  induction l with
  | nil => rfl
  | cons e es ih =>
    by_cases hek : e.1 = k
    · simp [eraseKey, hek, List.erase_cons]
    · simp [eraseKey, hek, List.erase_cons, ih]

theorem lookupAssoc_insertAssoc (l : List (Nat × block_header)) (k : Nat)
    (v : block_header) : lookupAssoc (insertAssoc l k v) k = some v := by
  induction l with
  | nil => simp [insertAssoc, lookupAssoc]
  | cons e es ih =>
    by_cases hek : e.1 = k
    · simp [insertAssoc, hek, lookupAssoc]
    · simp [insertAssoc, hek, lookupAssoc, ih]

theorem sizesSum_insertAssoc (l : List (Nat × block_header)) (k : Nat)
    (v : block_header) : sizesSum (insertAssoc l k v) ≤ sizesSum l + v.size := by
  induction l with
  | nil => simp [insertAssoc, sizesSum]
  | cons e es ih =>
    by_cases hek : e.1 = k
    · simp only [insertAssoc, hek, if_pos]
      simp only [sizesSum, List.map_cons, List.sum_cons] at *
      omega
    · simp only [insertAssoc, hek, if_neg, ite_false]
      simp only [sizesSum, List.map_cons, List.sum_cons] at *
      omega

theorem sizesSum_eraseKey (l : List (Nat × block_header)) (k : Nat) :
    sizesSum (eraseKey l k) ≤ sizesSum l := by
  induction l with
  | nil => simp [eraseKey]
  | cons e es ih =>
    by_cases hek : e.1 = k
    · simp only [eraseKey, hek, if_pos]
      simp only [sizesSum, List.map_cons, List.sum_cons]
      omega
    · simp only [eraseKey, hek, if_neg, ite_false]
      simp only [sizesSum, List.map_cons, List.sum_cons] at *
      omega

theorem eraseKey_idem (l : List (Nat × block_header)) (k : Nat)
    (hnd : (l.map Prod.fst).Nodup) :
    eraseKey (eraseKey l k) k = eraseKey l k := by
  apply eraseKey_of_not_mem
  rw [map_fst_eraseKey]
  exact hnd.not_mem_erase

/-- C2: deallocating a handle that is not live in the tracking table is a
silent no-op leaving the whole pool state (hence the table and
`active_allocation_count`) unchanged, and deallocating the same handle twice
is idempotent. The `unordered_map` invariant that live keys are distinct is
the `Nodup` hypothesis. -/
theorem deallocate_invalid_noop (p : basic_memory_pool) (h : Nat)
    (hnd : p.activeKeys.Nodup) :
    (h ∉ p.activeKeys → p.deallocate h = p) ∧
    (p.deallocate h).deallocate h = p.deallocate h := by
  constructor
  · intro hm
    unfold basic_memory_pool.deallocate
    rw [eraseKey_of_not_mem _ _ hm]
  · simp only [basic_memory_pool.deallocate]
    rw [eraseKey_idem _ _ hnd]

theorem deallocate_invalid_noop_witness :
    (run [Op.alloc 4 4 1 0]).activeKeys.Nodup ∧
    ((run [Op.alloc 4 4 1 0]).deallocate 7 = run [Op.alloc 4 4 1 0] ∧
      ((run [Op.alloc 4 4 1 0]).deallocate 7).deallocate 7 =
        (run [Op.alloc 4 4 1 0]).deallocate 7) :=
  ⟨by decide,
    (deallocate_invalid_noop (run [Op.alloc 4 4 1 0]) 7 (by decide)).1
      (by decide),
    (deallocate_invalid_noop (run [Op.alloc 4 4 1 0]) 7 (by decide)).2⟩

/-- C3: after `reset()` the active count is 0, there are no leaks, the leak
report is empty, and both lifetime counters are zero, whatever the prior
state. -/
theorem reset_clears_everything (p : basic_memory_pool) (now : Nat) :
    p.reset.active_allocation_count = 0 ∧
    p.reset.has_memory_leaks = false ∧
    p.reset.get_leak_report now = [] ∧
    p.reset.allocation_count_.get = 0 ∧
    p.reset.total_allocated_.get = 0 :=
  ⟨rfl, rfl, rfl, rfl, rfl⟩

theorem total_ge_live_runFrom (ops : List Op) :
    ∀ p : basic_memory_pool, sumLiveSizes p ≤ p.total_allocated_.get →
      sumLiveSizes (runFrom p ops) ≤ (runFrom p ops).total_allocated_.get := by
  induction ops with
  | nil => intro p hp; exact hp
  | cons op rest ih =>
    intro p hp
    cases op with
    | alloc s a c t =>
      show sumLiveSizes (runFrom (p.allocate s a c t).1 rest) ≤ _
      apply ih
      have h1 : sumLiveSizes (p.allocate s a c t).1 ≤ sumLiveSizes p + s * c := by
        simpa [sumLiveSizes, basic_memory_pool.allocate] using
          sizesSum_insertAssoc p.active_allocations_ (alignUp p.offset a)
            ⟨s * c, true, t⟩
      have h2 : (p.allocate s a c t).1.total_allocated_.get =
          p.total_allocated_.get + s * c := rfl
      omega
    | dealloc h =>
      show sumLiveSizes (runFrom (p.deallocate h) rest) ≤ _
      apply ih
      have h1 : sumLiveSizes (p.deallocate h) ≤ sumLiveSizes p :=
        sizesSum_eraseKey _ _
      have h2 : (p.deallocate h).total_allocated_.get =
          p.total_allocated_.get := rfl
      omega

/-- C4: the lifetime counters are monotone — `deallocate` never decreases
the lifetime allocation counter or the lifetime byte counter — and at every
reachable state the lifetime byte total dominates the sum of the live record
sizes. -/
theorem lifetime_counters_monotone :
    (∀ (p : basic_memory_pool) (h : Nat),
        p.allocation_count_.get ≤ (p.deallocate h).allocation_count_.get ∧
        p.total_allocated_.get ≤ (p.deallocate h).total_allocated_.get) ∧
    (∀ ops : List Op,
        sumLiveSizes (run ops) ≤ (run ops).total_allocated_.get) :=
  ⟨fun _ _ => ⟨le_refl _, le_refl _⟩,
    fun ops => total_ge_live_runFrom ops basic_memory_pool.init (le_refl _)⟩

/-- C5: `allocate<T>(count)` returns a handle aligned to `alignof(T)`
pointing at a freshly reserved region of `count * sizeof(T)` bytes inside
the backing buffer, inserts a record of exactly that size under the handle,
and bumps the lifetime allocation counter by 1 and the lifetime byte counter
by `count * sizeof(T)`; the operation is total (the buffer grows instead of
failing). -/
theorem allocate_contract (p : basic_memory_pool) (s a c t : Nat)
    (ha : 0 < a) :
    (p.allocate s a c t).2 % a = 0 ∧
    p.offset ≤ (p.allocate s a c t).2 ∧
    (p.allocate s a c t).2 + s * c ≤ (p.allocate s a c t).1.offset ∧
    lookupAssoc (p.allocate s a c t).1.active_allocations_
      ((p.allocate s a c t).2) = some ⟨s * c, true, t⟩ ∧
    (p.allocate s a c t).1.allocation_count_.get =
      p.allocation_count_.get + 1 ∧
    (p.allocate s a c t).1.total_allocated_.get =
      p.total_allocated_.get + s * c := by
  have e : p.allocate s a c t =
      (⟨alignUp (alignUp p.offset a + s * c) header_align + header_size,
        p.allocation_count_.increment,
        p.total_allocated_.add (s * c),
        insertAssoc p.active_allocations_ (alignUp p.offset a)
          ⟨s * c, true, t⟩⟩, alignUp p.offset a) := rfl
  rw [e]
  refine ⟨alignUp_mod _ _, le_alignUp ha, ?_,
    lookupAssoc_insertAssoc _ _ _, rfl, rfl⟩
  calc alignUp p.offset a + s * c
      ≤ alignUp (alignUp p.offset a + s * c) header_align :=
        le_alignUp (by decide)
    _ ≤ alignUp (alignUp p.offset a + s * c) header_align + header_size :=
        Nat.le_add_right _ _

theorem allocate_contract_witness :
    (0 : Nat) < 4 ∧
    ((basic_memory_pool.init.allocate 4 4 2 0).2 % 4 = 0 ∧
      basic_memory_pool.init.offset ≤
        (basic_memory_pool.init.allocate 4 4 2 0).2 ∧
      (basic_memory_pool.init.allocate 4 4 2 0).2 + 4 * 2 ≤
        (basic_memory_pool.init.allocate 4 4 2 0).1.offset ∧
      lookupAssoc (basic_memory_pool.init.allocate 4 4 2 0).1.active_allocations_
        ((basic_memory_pool.init.allocate 4 4 2 0).2) = some ⟨4 * 2, true, 0⟩ ∧
      (basic_memory_pool.init.allocate 4 4 2 0).1.allocation_count_.get =
        basic_memory_pool.init.allocation_count_.get + 1 ∧
      (basic_memory_pool.init.allocate 4 4 2 0).1.total_allocated_.get =
        basic_memory_pool.init.total_allocated_.get + 4 * 2) :=
  ⟨by decide, allocate_contract basic_memory_pool.init 4 4 2 0 (by decide)⟩

/-- C6: `has_memory_leaks()` is true exactly when the active allocation
count is positive. -/
theorem has_memory_leaks_iff_active (p : basic_memory_pool) :
    p.has_memory_leaks = true ↔ 0 < p.active_allocation_count := by
  simp [basic_memory_pool.has_memory_leaks]

/-- C7: the atomic counter starting from 0 satisfies its whole contract —
`increment` adds exactly 1, `add v` adds exactly `v` (including negative `v`
over a signed `T`), `get` reads the stored value, `reset` stores 0 — and
each operation is a total function. -/
theorem counter_contract :
    (thread_safe_counter.init : thread_safe_counter Int).get = 0 ∧
    (∀ c : thread_safe_counter Int, c.increment.get = c.get + 1) ∧
    (∀ (c : thread_safe_counter Int) (v : Int), (c.add v).get = c.get + v) ∧
    (∀ c : thread_safe_counter Int, c.reset.get = 0) :=
  ⟨rfl, fun _ => rfl, fun _ _ => rfl, fun _ => rfl⟩

/-- C8: with zero recorded samples every aggregate reader of the performance
counter returns its zero value, including the 50th percentile and the
average. -/
theorem cpc_empty_all_zero :
    concurrent_performance_counter.init.count = 0 ∧
    concurrent_performance_counter.init.total_time_ns = 0 ∧
    concurrent_performance_counter.init.min_time_ns = 0 ∧
    concurrent_performance_counter.init.max_time_ns = 0 ∧
    concurrent_performance_counter.init.average_time_ns = 0 ∧
    concurrent_performance_counter.init.percentile 50 = 0 :=
  ⟨rfl, rfl, rfl, rfl, rfl, rfl⟩

/-- C10: `format_value` is a total function on every input: it either
returns the string produced by the underlying formatter or, when the
formatter raises, swallows the exception and returns `"unprintable"`. -/
theorem format_value_never_throws {α : Type}
    (formatter : α → Except String String) (v : α) :
    (∃ s, formatter v = Except.ok s ∧ format_value formatter v = s) ∨
    (∃ e, formatter v = Except.error e ∧
      format_value formatter v = "unprintable") := by
  cases hf : formatter v with
  | ok s => exact Or.inl ⟨s, rfl, by simp [format_value, hf]⟩
  | error e => exact Or.inr ⟨e, rfl, by simp [format_value, hf]⟩

theorem activeKeys_runFrom (ops : List Op) :
    ∀ (p : basic_memory_pool) (live : List Nat),
      p.activeKeys = live →
      (∀ x ∈ p.activeKeys, x < p.offset) →
      (∀ op ∈ ops, op.align_ok = true) →
      (runFrom p ops).activeKeys = liveHandlesFrom p live ops := by
  induction ops with
  | nil => intro p live hkeys hinv hops; exact hkeys
  | cons op rest ih =>
    intro p live hkeys hinv hops
    cases op with
    | alloc s a c t =>
      have ha : 0 < a := by
        have h := hops _ (List.mem_cons_self _ _)
        simpa [Op.align_ok] using h
      have hk2 : p.active_allocations_.map Prod.fst = live := hkeys
      have hptr : p.offset ≤ alignUp p.offset a := le_alignUp ha
      have hhs : 0 < header_size := by decide
      have hmid : alignUp p.offset a + s * c ≤
          alignUp (alignUp p.offset a + s * c) header_align :=
        le_alignUp (by decide)
      have hfresh : alignUp p.offset a ∉ p.active_allocations_.map Prod.fst := by
        intro hmem
        have hlt := hinv _ hmem
        omega
      have hkeys' : (p.allocate s a c t).1.activeKeys =
          live ++ [(p.allocate s a c t).2] := by
        show (insertAssoc p.active_allocations_ (alignUp p.offset a)
            ⟨s * c, true, t⟩).map Prod.fst = live ++ [alignUp p.offset a]
        rw [insertAssoc_of_not_mem _ _ _ hfresh, List.map_append, hk2]
        rfl
      have hoff : (p.allocate s a c t).1.offset =
          alignUp (alignUp p.offset a + s * c) header_align + header_size := rfl
      have hinv' : ∀ x ∈ (p.allocate s a c t).1.activeKeys,
          x < (p.allocate s a c t).1.offset := by
        intro x hx
        have hx' : x ∈ live ++ [(p.allocate s a c t).2] := by
          rw [← hkeys']; exact hx
        rw [hoff]
        rcases List.mem_append.1 hx' with hold | hnew
        · have hxo : x < p.offset := hinv x (by rw [hkeys]; exact hold)
          omega
        · have hxe : x = alignUp p.offset a := by simpa using hnew
          omega
      show (runFrom (p.allocate s a c t).1 rest).activeKeys =
        liveHandlesFrom (p.allocate s a c t).1
          (live ++ [(p.allocate s a c t).2]) rest
      exact ih _ _ hkeys' hinv' (fun op hop => hops _ (List.mem_cons_of_mem _ hop))
    | dealloc h =>
      have hme : (p.deallocate h).activeKeys = p.activeKeys.erase h := by
        show (eraseKey p.active_allocations_ h).map Prod.fst = _
        exact map_fst_eraseKey _ _
      have hkeys' : (p.deallocate h).activeKeys =
          (if h ∈ live then live.erase h else live) := by
        rw [hme, hkeys]
        by_cases hm : h ∈ live
        · rw [if_pos hm]
        · rw [if_neg hm, List.erase_of_not_mem hm]
      have hinv' : ∀ x ∈ (p.deallocate h).activeKeys,
          x < (p.deallocate h).offset := by
        intro x hx
        rw [hme] at hx
        exact hinv x (List.mem_of_mem_erase hx)
      show (runFrom (p.deallocate h) rest).activeKeys =
        liveHandlesFrom (p.deallocate h)
          (if h ∈ live then live.erase h else live) rest
      exact ih _ _ hkeys' hinv' (fun op hop => hops _ (List.mem_cons_of_mem _ hop))

/-- C1: for every well-formed sequence of allocate/deallocate calls on one
pool (no intervening reset), `active_allocation_count()` equals the number
of allocate calls whose returned handle has not yet had a matching,
first-time-valid deallocate call. -/
theorem active_count_eq_outstanding (ops : List Op)
    (hops : ∀ op ∈ ops, op.align_ok = true) :
    (run ops).active_allocation_count = (liveHandles ops).length := by
  have h := activeKeys_runFrom ops basic_memory_pool.init [] rfl
    (by intro x hx; simp [basic_memory_pool.init, basic_memory_pool.activeKeys] at hx)
    hops
  have h2 : (run ops).activeKeys = liveHandles ops := h
  calc (run ops).active_allocation_count
      = (run ops).activeKeys.length := (List.length_map _ _).symm
    _ = (liveHandles ops).length := by rw [h2]

theorem active_count_eq_outstanding_witness :
    (∀ op ∈ [Op.alloc 4 4 1 0, Op.alloc 8 8 2 1, Op.dealloc 0, Op.dealloc 0,
        Op.dealloc 999], op.align_ok = true) ∧
    (run [Op.alloc 4 4 1 0, Op.alloc 8 8 2 1, Op.dealloc 0, Op.dealloc 0,
        Op.dealloc 999]).active_allocation_count =
      (liveHandles [Op.alloc 4 4 1 0, Op.alloc 8 8 2 1, Op.dealloc 0,
        Op.dealloc 0, Op.dealloc 999]).length :=
  ⟨by decide, active_count_eq_outstanding _ (by decide)⟩

theorem getD_eq_get (s : List Nat) (n : Nat) (h : n < s.length) :
    s.getD n 0 = s.get ⟨n, h⟩ := by
  rw [List.getD_eq_getElem?_getD, List.getElem?_eq_getElem h]
  rfl

theorem clampNth_mono (s : List Nat) (hs : s.Sorted (· ≤ ·)) (hne : s ≠ [])
    {i j : Nat} (hij : i ≤ j) : clampNth s i ≤ clampNth s j := by
  have hlen : 0 < s.length := List.length_pos.mpr hne
  have hi : min i (s.length - 1) < s.length := by omega
  have hj : min j (s.length - 1) < s.length := by omega
  have hmm : min i (s.length - 1) ≤ min j (s.length - 1) := by omega
  unfold clampNth
  rw [getD_eq_get s _ hi, getD_eq_get s _ hj]
  exact hs.rel_get_of_le hmm

theorem floor_toNat_le (r : ℚ) (h0 : 0 ≤ r) : ((Int.floor r).toNat : ℚ) ≤ r := by
  have hfn : (0:ℤ) ≤ Int.floor r := Int.floor_nonneg.mpr h0
  have h3 : ((Int.floor r).toNat : ℤ) = Int.floor r := Int.toNat_of_nonneg hfn
  have h4 := Int.floor_le r
  rw [← h3] at h4
  exact_mod_cast h4

theorem lt_floor_toNat_add_one (r : ℚ) (h0 : 0 ≤ r) :
    r < ((Int.floor r).toNat : ℚ) + 1 := by
  have hfn : (0:ℤ) ≤ Int.floor r := Int.floor_nonneg.mpr h0
  have h3 : ((Int.floor r).toNat : ℤ) = Int.floor r := Int.toNat_of_nonneg hfn
  have h2 := Int.lt_floor_add_one r
  rw [← h3] at h2
  exact_mod_cast h2

theorem interp_le_interp (s : List Nat) (hs : s.Sorted (· ≤ ·)) (hne : s ≠ [])
    {r r' : ℚ} (h0 : 0 ≤ r) (hrr : r ≤ r') : interp s r ≤ interp s r' := by
  have h0' : 0 ≤ r' := le_trans h0 hrr
  have hfr0 : (((Int.floor r).toNat : ℚ)) ≤ r := floor_toNat_le r h0
  have hfr1 : r < ((Int.floor r).toNat : ℚ) + 1 := lt_floor_toNat_add_one r h0
  have hfr0' : (((Int.floor r').toNat : ℚ)) ≤ r' := floor_toNat_le r' h0'
  have hkk : (Int.floor r).toNat ≤ (Int.floor r').toNat :=
    Int.toNat_le_toNat (Int.floor_le_floor hrr)
  unfold interp
  set k := (Int.floor r).toNat with hk
  set k' := (Int.floor r').toNat with hk'
  have hA : (clampNth s k : ℚ) ≤ (clampNth s (k+1) : ℚ) := by
    exact_mod_cast clampNth_mono s hs hne (Nat.le_succ k)
  have hA' : (clampNth s k' : ℚ) ≤ (clampNth s (k'+1) : ℚ) := by
    exact_mod_cast clampNth_mono s hs hne (Nat.le_succ k')
  rcases Nat.eq_or_lt_of_le hkk with heq | hlt
  · rw [← heq]
    have hba : (0:ℚ) ≤ (clampNth s (k+1) : ℚ) - clampNth s k := by linarith
    have hm := mul_le_mul_of_nonneg_right (sub_le_sub_right hrr (k:ℚ)) hba
    linarith
  · have hmid : (clampNth s (k+1) : ℚ) ≤ (clampNth s k' : ℚ) := by
      exact_mod_cast clampNth_mono s hs hne hlt
    have hba : (0:ℚ) ≤ (clampNth s (k+1) : ℚ) - clampNth s k := by linarith
    have hba' : (0:ℚ) ≤ (clampNth s (k'+1) : ℚ) - clampNth s k' := by linarith
    have hup : (r - (k:ℚ)) * ((clampNth s (k+1) : ℚ) - clampNth s k) ≤
        1 * ((clampNth s (k+1) : ℚ) - clampNth s k) :=
      mul_le_mul_of_nonneg_right (by linarith) hba
    have hlow : 0 ≤ (r' - (k':ℚ)) * ((clampNth s (k'+1) : ℚ) - clampNth s k') :=
      mul_nonneg (by linarith) hba'
    linarith

/-- C9: over any fixed non-empty retained sample set, `percentile` — linear
interpolation between the two bounding order statistics of the sorted
snapshot — is monotonically non-decreasing in its argument on `[0, 100]`. -/
theorem percentile_monotone (c : concurrent_performance_counter) (p q : ℚ)
    (hne : c.samples ≠ []) (hp0 : 0 ≤ p) (hpq : p ≤ q) (hq : q ≤ 100) :
    c.percentile p ≤ c.percentile q := by
  unfold concurrent_performance_counter.percentile
  rw [if_neg hne, if_neg hne]
  have hx : (0:ℚ) ≤ ((c.samples.length - 1 : Nat) : ℚ) := by positivity
  apply interp_le_interp
  · exact List.sorted_insertionSort _ _
  · intro hemp
    apply hne
    have hperm := List.perm_insertionSort (· ≤ ·) c.samples
    rw [hemp] at hperm
    exact (hperm.nil_eq).symm
  · apply div_nonneg (mul_nonneg hp0 hx)
    norm_num
  · have hm := mul_le_mul_of_nonneg_right hpq hx
    linarith

theorem percentile_monotone_witness :
    (⟨[50, 100, 150, 200, 250]⟩ : concurrent_performance_counter).samples ≠ [] ∧
    (0:ℚ) ≤ 25 ∧ (25:ℚ) ≤ 75 ∧ (75:ℚ) ≤ 100 ∧
    (⟨[50, 100, 150, 200, 250]⟩ :
        concurrent_performance_counter).percentile 25 ≤
      (⟨[50, 100, 150, 200, 250]⟩ :
        concurrent_performance_counter).percentile 75 :=
  ⟨by decide, by norm_num, by norm_num, by norm_num,
    percentile_monotone _ 25 75 (by decide) (by norm_num) (by norm_num)
      (by norm_num)⟩
